import Mathlib

/-!
Verification of the atelier JSON writer and core I/O boundary.

The development shallowly embeds the Rust sources of the repository:

* `src/atelier-core/src/lib.rs` (the `Version` type),
* `src/atelier-core/src/io/mod.rs` (the `ModelReader`/`ModelWriter` contract
  and the `read_model_from_string` / `write_model_to_string` helpers),
* `src/atelier-json/src/writer.rs` (the `JsonWriter`).

Machine strings are lists of characters, byte streams are lists of naturals,
and functions that can fail return an explicit `Outcome`.  A Rust panic
(`unwrap` on `None`) is modelled by `Outcome.panic`; a match arm that is
absent from the source is modelled by `Outcome.noArm`.

The shape/value data model and the identifier system live in modules of the
repository that are not part of the given sources; those definitions are
modelled from the specification and carry a doc comment saying so.
-/

set_option maxHeartbeats 1600000

namespace Atelier

/-- Machine strings are modelled as lists of characters. -/
abbrev Str := List Char

/-- Byte streams are modelled as lists of naturals below 256. -/
abbrev Bytes := List Nat

/-- Lexicographic comparison of strings by character code, the key order of
the sorted map backing serde_json objects. -/
def strLt : Str → Str → Bool
  | [], [] => false
  | [], _ :: _ => true
  | _ :: _, [] => false
  | a :: as, b :: bs =>
    if a.toNat < b.toNat then true
    else if b.toNat < a.toNat then false
    else strLt as bs

/-- Insertion into a key-sorted association list; an existing binding of the
same key is replaced, as serde_json Map insertion does. -/
def mapInsert {α : Type} (k : Str) (v : α) : List (Str × α) → List (Str × α)
  | [] => [(k, v)]
  | (k', v') :: rest =>
    if k = k' then (k, v) :: rest
    else if strLt k k' then (k, v) :: (k', v') :: rest
    else (k', v') :: mapInsert k v rest

/-- Lookup in an association list. -/
def mapLookup {α : Type} (k : Str) : List (Str × α) → Option α
  | [] => Option.none
  | (k', v') :: rest => if k = k' then some v' else mapLookup k rest

/-- An IEEE-754 double is modelled by its 64-bit pattern; only finiteness of
the value matters to the writer. -/
structure F64 where
  bits : Nat
deriving DecidableEq

/-- A double is finite when its exponent field is not all ones. -/
def F64.isFinite (x : F64) : Bool := decide (x.bits / 2 ^ 52 % 2 ^ 11 ≠ 2047)

/-- A concrete not-a-number double (exponent field all ones, non-zero
mantissa). -/
def nanF64 : F64 := ⟨2047 * 2 ^ 52 + 2 ^ 51⟩

/-- A serde_json number is either an integer or a finite double. -/
inductive JsonNum where
  | int (i : Int)
  | float (f : F64)

/-- Embeds serde_json Number::from_f64, which returns None on a non-finite
double. -/
def JsonNumber.from_f64 (f : F64) : Option JsonNum :=
  if f.isFinite then some (JsonNum.float f) else Option.none

/-- A serde_json value tree; objects are key-sorted association lists. -/
inductive Json where
  | null
  | bool (b : Bool)
  | num (n : JsonNum)
  | str (s : Str)
  | arr (vs : List Json)
  | obj (kvs : List (Str × Json))

/-- Lookup of a key in a JSON object value. -/
def jsonLookup (j : Json) (k : Str) : Option Json :=
  match j with
  | .obj kvs => mapLookup k kvs
  | _ => Option.none

/-- Top-level keys of a JSON object value. -/
def Json.keys : Json → List Str
  | .obj kvs => kvs.map Prod.fst
  | _ => []

/-- Modelled from the spec: the error taxonomy names the error kinds used by
the embedded operations (the error module itself is not among the given
sources). -/
inductive ErrorKind where
  | invalidVersionNumber (s : Str)
  | serialization (ext : Str)
  | other (msg : Str)
deriving DecidableEq

/-- Result of running a piece of the embedded program: an explicit value, an
explicit error, a Rust panic, or a case for which the source has no match
arm. -/
inductive Outcome (α : Type) where
  | ok (a : α)
  | error (e : ErrorKind)
  | panic
  | noArm

/-- Functorial action on the ok case. -/
def Outcome.map {α β : Type} (f : α → β) : Outcome α → Outcome β
  | .ok a => .ok (f a)
  | .error e => .error e
  | .panic => .panic
  | .noArm => .noArm

/-- Whether an outcome is a success. -/
def Outcome.isOk {α : Type} : Outcome α → Bool
  | .ok _ => true
  | _ => false

/-- The success value of an outcome, with a default. -/
def Outcome.getD {α : Type} : Outcome α → α → α
  | .ok a, _ => a
  | _, d => d

/-- Embeds the Version enum (src/atelier-core/src/lib.rs line 304): version
1.0 is the only variant. -/
inductive Version where
  | v10
deriving DecidableEq

/-- Embeds Display for Version (src/atelier-core/src/lib.rs lines 319-323):
every version renders as "1.0". -/
def Version.display : Version → Str
  | .v10 => "1.0".toList

/-- Embeds FromStr for Version (src/atelier-core/src/lib.rs lines 325-335):
exactly the string "1.0" parses, every other string is an
InvalidVersionNumber error. -/
def Version.from_str (s : Str) : Except ErrorKind Version :=
  if s = "1.0".toList then .ok .v10 else .error (.invalidVersionNumber s)

/-- Modelled from the spec: the first character of an identifier is a letter
or an underscore. -/
def isIdentStart (c : Char) : Bool := c.isAlpha || c = '_'

/-- Modelled from the spec: later characters of an identifier are letters,
digits or underscores. -/
def isIdentChar (c : Char) : Bool := c.isAlphanum || c = '_'

/-- Modelled from the spec: an Identifier is a non-empty token matching
[A-Za-z_][A-Za-z0-9_]*. -/
def validIdentString : Str → Bool
  | [] => false
  | c :: cs => isIdentStart c && cs.all isIdentChar

/-- Modelled from the spec: a NamespaceID is a non-empty sequence of
identifiers joined by dots (the identifier module is not among the given
sources). -/
structure NamespaceID where
  parts : List Str
deriving DecidableEq

/-- Modelled from the spec: a ShapeID is a namespace, a shape name and an
optional member name. -/
structure ShapeID where
  ns : NamespaceID
  shape_name : Str
  member_name : Option Str
deriving DecidableEq

/-- Joins a list of strings with a separator character. -/
def joinSep (sep : Char) : List Str → Str
  | [] => []
  | [p] => p
  | p :: q :: ps => p ++ sep :: joinSep sep (q :: ps)

/-- Splits a string at every occurrence of a separator character; the result
is always non-empty. -/
def splitOnChar (sep : Char) : Str → List Str
  | [] => [[]]
  | c :: cs =>
    match splitOnChar sep cs with
    | [] => [[]]
    | p :: ps => if c = sep then [] :: p :: ps else (c :: p) :: ps

/-- Modelled from the spec: canonical rendering of a NamespaceID is the
dot-joined part sequence. -/
def NamespaceID.render (n : NamespaceID) : Str := joinSep '.' n.parts

/-- Modelled from the spec: canonical rendering of a ShapeID is
namespace#shape_name with an optional dollar-prefixed member name. -/
def ShapeID.render (id : ShapeID) : Str :=
  id.ns.render ++ '#' :: id.shape_name ++
    (match id.member_name with
     | Option.none => []
     | some m => '$' :: m)

/-- Modelled from the spec: parsing an Identifier accepts exactly the valid
identifier tokens and returns them unchanged. -/
def Identifier.parse (s : Str) : Option Str :=
  if validIdentString s then some s else Option.none

/-- Modelled from the spec: parsing a NamespaceID splits on dots and checks
every part is a valid identifier. -/
def NamespaceID.parse (s : Str) : Option NamespaceID :=
  let parts := splitOnChar '.' s
  if parts.all validIdentString then some ⟨parts⟩ else Option.none

/-- Modelled from the spec: parsing a ShapeID splits namespace from shape
name at the hash sign and an optional member name at the dollar sign. -/
def ShapeID.parse (s : Str) : Option ShapeID :=
  match splitOnChar '#' s with
  | [nsStr, rest] =>
    match NamespaceID.parse nsStr with
    | Option.none => Option.none
    | some n =>
      match splitOnChar '$' rest with
      | [name] =>
        if validIdentString name then some ⟨n, name, Option.none⟩ else Option.none
      | [name, mem] =>
        if validIdentString name && validIdentString mem then some ⟨n, name, some mem⟩
        else Option.none
      | _ => Option.none
  | _ => Option.none

/-- Modelled from the spec: the strings of the NamespaceID grammar. -/
def validNamespaceString (s : Str) : Bool :=
  (splitOnChar '.' s).all validIdentString

/-- Modelled from the spec: the strings of the ShapeID grammar. -/
def validShapeIDString (s : Str) : Bool :=
  match splitOnChar '#' s with
  | [nsStr, rest] =>
    validNamespaceString nsStr &&
      (match splitOnChar '$' rest with
       | [name] => validIdentString name
       | [name, mem] => validIdentString name && validIdentString mem
       | _ => false)
  | _ => false

/-- Modelled from the spec: numbers attached to trait and metadata values are
either 64-bit integers or doubles. -/
inductive Number where
  | integer (i : Int)
  | float (f : F64)

/-- Modelled from the spec: the Value tagged union of the data model (the
values module is not among the given sources); object entries keep their
insertion order. -/
inductive NodeValue where
  | none
  | boolean (b : Bool)
  | number (n : Number)
  | string (s : Str)
  | textBlock (s : Str)
  | shapeID (id : ShapeID)
  | array (vs : List NodeValue)
  | object (kvs : List (Str × NodeValue))

/-- Modelled from the spec: an applied trait is the ShapeID of the trait
definition with an optional value. -/
structure AppliedTrait where
  id : ShapeID
  value : Option NodeValue

/-- Modelled from the spec: a member shape has a member ShapeID, a target
ShapeID and its own trait set. -/
structure MemberShape where
  id : ShapeID
  target : ShapeID
  traits : List AppliedTrait

/-- Modelled from the spec: the simple scalar kinds. -/
inductive Simple where
  | blob
  | boolean
  | document
  | string
  | byte
  | short
  | integer
  | long
  | float
  | double
  | bigInteger
  | bigDecimal
  | timestamp

/-- Modelled from the spec: Display for the simple scalar kinds renders the
lowercase-initial kind names. -/
def Simple.display : Simple → Str
  | .blob => "blob".toList
  | .boolean => "boolean".toList
  | .document => "document".toList
  | .string => "string".toList
  | .byte => "byte".toList
  | .short => "short".toList
  | .integer => "integer".toList
  | .long => "long".toList
  | .float => "float".toList
  | .double => "double".toList
  | .bigInteger => "bigInteger".toList
  | .bigDecimal => "bigDecimal".toList
  | .timestamp => "timestamp".toList

/-- Modelled from the spec: a list or set body holds the single member shape. -/
structure ListOrSet where
  member : MemberShape

/-- Modelled from the spec: a map body holds the key and value member
shapes. -/
structure MapShape where
  key : MemberShape
  value : MemberShape

/-- Modelled from the spec: a structure or union body holds its members in
insertion order. -/
structure StructureOrUnion where
  members : List MemberShape

/-- Modelled from the spec: a service body has a version string and sets of
operation and resource references. -/
structure Service where
  version : Str
  operations : List ShapeID
  resources : List ShapeID

/-- Modelled from the spec: an operation body has optional input and output
references and a set of error references. -/
structure Operation where
  input : Option ShapeID
  output : Option ShapeID
  errors : List ShapeID

/-- Modelled from the spec: a resource body has an identifier name-to-type
mapping, six optional lifecycle operation references, instance and
collection operation reference sets, and child resource references. -/
structure Resource where
  identifiers : List (Str × ShapeID)
  create : Option ShapeID
  put : Option ShapeID
  read : Option ShapeID
  update : Option ShapeID
  delete : Option ShapeID
  list : Option ShapeID
  operations : List ShapeID
  collection_operations : List ShapeID
  resources : List ShapeID

/-- Modelled from the spec: the shape kind tagged union. -/
inductive ShapeKind where
  | simple (v : Simple)
  | list (v : ListOrSet)
  | set (v : ListOrSet)
  | map (v : MapShape)
  | struct (v : StructureOrUnion)
  | union (v : StructureOrUnion)
  | service (v : Service)
  | operation (v : Operation)
  | resource (v : Resource)
  | unresolved

/-- Members of a structure or union body; every other kind has none rendered
by the members writer. -/
def ShapeKind.structMembers : ShapeKind → List MemberShape
  | .struct v => v.members
  | .union v => v.members
  | _ => []

/-- Modelled from the spec: a top-level shape has a member-less ShapeID, a
trait set and a shape kind body. -/
structure TopLevelShape where
  id : ShapeID
  traits : List AppliedTrait
  body : ShapeKind

/-- Modelled from the spec: a model owns the spec version, the top-level
shapes (the unordered shape container is modelled as a list in iteration
order) and the model-wide metadata mapping. -/
structure Model where
  version : Version
  shapes : List TopLevelShape
  metadata : List (Str × NodeValue)

/-- Modelled from the spec: JSON AST key constant of the missing
src/atelier-json/src/syntax.rs module. -/
def K_SMITHY : Str := "smithy".toList

/-- Modelled from the spec: JSON AST key constant. -/
def K_SHAPES : Str := "shapes".toList

/-- Modelled from the spec: JSON AST key constant. -/
def K_METADATA : Str := "metadata".toList

/-- Modelled from the spec: JSON AST key constant. -/
def K_TRAITS : Str := "traits".toList

/-- Modelled from the spec: JSON AST key constant. -/
def K_TYPE : Str := "type".toList

/-- Modelled from the spec: JSON AST key constant. -/
def K_MEMBER : Str := "member".toList

/-- Modelled from the spec: JSON AST key constant. -/
def K_KEY : Str := "key".toList

/-- Modelled from the spec: JSON AST key constant. -/
def K_VALUE : Str := "value".toList

/-- Modelled from the spec: JSON AST key constant. -/
def K_MEMBERS : Str := "members".toList

/-- Modelled from the spec: JSON AST key constant. -/
def K_VERSION : Str := "version".toList

/-- Modelled from the spec: JSON AST key constant for instance operation
references. -/
def K_OPERATIONS : Str := "operations".toList

/-- Modelled from the spec: JSON AST key constant for child resource
references. -/
def K_RESOURCES : Str := "resources".toList

/-- Modelled from the spec: JSON AST key constant. -/
def K_INPUT : Str := "input".toList

/-- Modelled from the spec: JSON AST key constant. -/
def K_OUTPUT : Str := "output".toList

/-- Modelled from the spec: JSON AST key constant. -/
def K_ERRORS : Str := "errors".toList

/-- Modelled from the spec: JSON AST key constant. -/
def K_IDENTIFIERS : Str := "identifiers".toList

/-- Modelled from the spec: JSON AST key constant. -/
def K_CREATE : Str := "create".toList

/-- Modelled from the spec: JSON AST key constant. -/
def K_PUT : Str := "put".toList

/-- Modelled from the spec: JSON AST key constant. -/
def K_READ : Str := "read".toList

/-- Modelled from the spec: JSON AST key constant. -/
def K_UPDATE : Str := "update".toList

/-- Modelled from the spec: JSON AST key constant. -/
def K_DELETE : Str := "delete".toList

/-- Modelled from the spec: JSON AST key constant. -/
def K_LIST : Str := "list".toList

/-- Modelled from the spec: JSON AST key constant for collection operation
references. -/
def K_COLLECTION_OPERATIONS : Str := "collectionOperations".toList

/-- Modelled from the spec: JSON AST key constant. -/
def K_TARGET : Str := "target".toList

/-- Modelled from the spec: JSON AST type-name constant. -/
def V_LIST : Str := "list".toList

/-- Modelled from the spec: JSON AST type-name constant. -/
def V_SET : Str := "set".toList

/-- Modelled from the spec: JSON AST type-name constant. -/
def V_MAP : Str := "map".toList

/-- Modelled from the spec: JSON AST type-name constant. -/
def V_STRUCTURE : Str := "structure".toList

/-- Modelled from the spec: JSON AST type-name constant. -/
def V_UNION : Str := "union".toList

/-- Modelled from the spec: JSON AST type-name constant. -/
def V_SERVICE : Str := "service".toList

/-- Modelled from the spec: JSON AST type-name constant. -/
def V_OPERATION : Str := "operation".toList

/-- Modelled from the spec: JSON AST type-name constant. -/
def V_RESOURCE : Str := "resource".toList

/-- Modelled from the spec: JSON AST type-name constant. -/
def V_APPLY : Str := "apply".toList

mutual

/-- Embeds JsonWriter::value (src/atelier-json/src/writer.rs lines 233-251).
The source match has arms only for None, Array, Object, Number, Boolean and
String; the TextBlock and ShapeID variants of the data model have no arm and
are modelled by `Outcome.noArm`.  The Float arm unwraps the result of
JsonNumber::from_f64, so a non-finite double is a panic, modelled by
`Outcome.panic`. -/
def JsonWriter.value : NodeValue → Outcome Json
  | .none => .ok .null
  | .array vs => (JsonWriter.valueList vs).map Json.arr
  | .object kvs => (JsonWriter.valueObj kvs []).map Json.obj
  | .number (.integer i) => .ok (.num (.int i))
  | .number (.float f) =>
    match JsonNumber.from_f64 f with
    | some n => .ok (.num n)
    | Option.none => .panic
  | .boolean b => .ok (.bool b)
  | .string s => .ok (.str s)
  | .textBlock _ => .noArm
  | .shapeID _ => .noArm

/-- Elementwise conversion of an array value, stopping at the first
failure, as the iterator in the Array arm of JsonWriter::value does. -/
def JsonWriter.valueList : List NodeValue → Outcome (List Json)
  | [] => .ok []
  | v :: vs =>
    match JsonWriter.value v with
    | .ok j => (JsonWriter.valueList vs).map (fun js => j :: js)
    | .error e => .error e
    | .panic => .panic
    | .noArm => .noArm

/-- Entrywise conversion of an object value into the serde map, in
iteration order, as the Object arm of JsonWriter::value does. -/
def JsonWriter.valueObj : List (Str × NodeValue) → List (Str × Json) → Outcome (List (Str × Json))
  | [], m => .ok m
  | (k, v) :: rest, m =>
    match JsonWriter.value v with
    | .ok j => JsonWriter.valueObj rest (mapInsert k j m)
    | .error e => .error e
    | .panic => .panic
    | .noArm => .noArm

end

/-- The value emitted for one applied trait by JsonWriter::traits
(src/atelier-json/src/writer.rs lines 208-211): a valueless trait becomes an
empty JSON object, otherwise the value conversion is applied. -/
def traitValueJson (t : AppliedTrait) : Outcome Json :=
  match t.value with
  | Option.none => .ok (.obj [])
  | some v => JsonWriter.value v

/-- A fold shared by the writer loops: for each element insert the rendered
key and the converted value into the serde map, stopping at the first
failure. -/
def outFold {α : Type} (κ : α → Str) (φ : α → Outcome Json) :
    List α → List (Str × Json) → Outcome (List (Str × Json))
  | [], m => .ok m
  | x :: rest, m =>
    match φ x with
    | .ok j => outFold κ φ rest (mapInsert (κ x) j m)
    | .error e => .error e
    | .panic => .panic
    | .noArm => .noArm

/-- Embeds JsonWriter::traits (src/atelier-json/src/writer.rs lines
203-215): a map from rendered trait ShapeID to trait value. -/
def JsonWriter.traits (ts : List AppliedTrait) : Outcome Json :=
  (outFold (fun t => t.id.render) traitValueJson ts []).map Json.obj

/-- Embeds JsonWriter::reference (src/atelier-json/src/writer.rs lines
253-257): a singleton object binding "target" to the rendered ShapeID. -/
def JsonWriter.reference (id : ShapeID) : Json :=
  .obj (mapInsert K_TARGET (.str id.render) [])

/-- The object emitted for one member by JsonWriter::members
(src/atelier-json/src/writer.rs lines 219-228): the member traits when
present, then the member target reference string. -/
def JsonWriter.memberEntry (mem : MemberShape) : Outcome Json :=
  let base : Outcome (List (Str × Json)) :=
    if mem.traits.isEmpty then .ok []
    else (JsonWriter.traits mem.traits).map (fun tj => mapInsert K_TRAITS tj [])
  base.map (fun mm => .obj (mapInsert K_TARGET (.str mem.target.render) mm))

/-- Embeds JsonWriter::members (src/atelier-json/src/writer.rs lines
217-231): a map from rendered member ShapeID to member object. -/
def JsonWriter.members (ms : List MemberShape) : Outcome Json :=
  (outFold (fun mem => mem.id.render) JsonWriter.memberEntry ms []).map Json.obj

/-- Conditional insertion, for the has_x guards of JsonWriter::shape. -/
def insertIf (cond : Bool) (k : Str) (v : Json) (m : List (Str × Json)) :
    List (Str × Json) :=
  if cond then mapInsert k v m else m

/-- Insertion of an optional reference, for the if-let arms of
JsonWriter::shape. -/
def insertOpt (k : Str) (o : Option ShapeID) (m : List (Str × Json)) :
    List (Str × Json) :=
  match o with
  | some v => mapInsert k (JsonWriter.reference v) m
  | Option.none => m

/-- Embeds the body match of JsonWriter::shape (src/atelier-json/src/writer.rs
lines 81-199), inserting into the map already holding the traits entry.  The
Resource arm reproduces the source exactly: instance operations are inserted
under the "operations" key, collection operations are inserted under the
"operations" key as well (lines 179-188), and child resources are inserted
under the "collectionOperations" key (lines 189-194); no "resources" key is
ever written. -/
def JsonWriter.shapeBody : ShapeKind → List (Str × Json) → Outcome (List (Str × Json))
  | .simple v, m0 => .ok (mapInsert K_TYPE (.str v.display) m0)
  | .list v, m0 =>
    .ok (mapInsert K_MEMBER (JsonWriter.reference v.member.target)
      (mapInsert K_TYPE (.str V_LIST) m0))
  | .set v, m0 =>
    .ok (mapInsert K_MEMBER (JsonWriter.reference v.member.target)
      (mapInsert K_TYPE (.str V_SET) m0))
  | .map v, m0 =>
    .ok (mapInsert K_VALUE (JsonWriter.reference v.value.target)
      (mapInsert K_KEY (JsonWriter.reference v.key.target)
        (mapInsert K_TYPE (.str V_MAP) m0)))
  | .struct v, m0 =>
    let m1 := mapInsert K_TYPE (.str V_STRUCTURE) m0
    if v.members.isEmpty then .ok m1
    else (JsonWriter.members v.members).map (fun mj => mapInsert K_MEMBERS mj m1)
  | .union v, m0 =>
    let m1 := mapInsert K_TYPE (.str V_UNION) m0
    if v.members.isEmpty then .ok m1
    else (JsonWriter.members v.members).map (fun mj => mapInsert K_MEMBERS mj m1)
  | .service v, m0 =>
    let m1 := mapInsert K_VERSION (.str v.version) (mapInsert K_TYPE (.str V_SERVICE) m0)
    let m2 := insertIf (!v.operations.isEmpty) K_OPERATIONS
      (.arr (v.operations.map JsonWriter.reference)) m1
    let m3 := insertIf (!v.resources.isEmpty) K_RESOURCES
      (.arr (v.resources.map JsonWriter.reference)) m2
    .ok m3
  | .operation v, m0 =>
    let m1 := mapInsert K_TYPE (.str V_OPERATION) m0
    let m2 := insertOpt K_INPUT v.input m1
    let m3 := insertOpt K_OUTPUT v.output m2
    let m4 := insertIf (!v.errors.isEmpty) K_ERRORS
      (.arr (v.errors.map JsonWriter.reference)) m3
    .ok m4
  | .resource v, m0 =>
    let m1 := mapInsert K_TYPE (.str V_RESOURCE) m0
    let m2 := insertIf (!v.identifiers.isEmpty) K_IDENTIFIERS
      (.obj (v.identifiers.foldl (fun mm kv => mapInsert kv.1 (Json.str kv.2.render) mm) [])) m1
    let m3 := insertOpt K_CREATE v.create m2
    let m4 := insertOpt K_PUT v.put m3
    let m5 := insertOpt K_READ v.read m4
    let m6 := insertOpt K_UPDATE v.update m5
    let m7 := insertOpt K_DELETE v.delete m6
    let m8 := insertOpt K_LIST v.list m7
    let m9 := insertIf (!v.operations.isEmpty) K_OPERATIONS
      (.arr (v.operations.map JsonWriter.reference)) m8
    let m10 := insertIf (!v.collection_operations.isEmpty) K_OPERATIONS
      (.arr (v.collection_operations.map JsonWriter.reference)) m9
    let m11 := insertIf (!v.resources.isEmpty) K_COLLECTION_OPERATIONS
      (.arr (v.resources.map JsonWriter.reference)) m10
    .ok m11
  | .unresolved, m0 => .ok (mapInsert K_TYPE (.str V_APPLY) m0)

/-- Embeds JsonWriter::shape (src/atelier-json/src/writer.rs lines 76-201):
the traits entry when the shape has traits, then the body entries. -/
def JsonWriter.shape (s : TopLevelShape) : Outcome Json :=
  let start : Outcome (List (Str × Json)) :=
    if s.traits.isEmpty then .ok []
    else (JsonWriter.traits s.traits).map (fun tj => mapInsert K_TRAITS tj [])
  match start with
  | .ok m0 => (JsonWriter.shapeBody s.body m0).map Json.obj
  | .error e => .error e
  | .panic => .panic
  | .noArm => .noArm

/-- Embeds JsonWriter::shapes (src/atelier-json/src/writer.rs lines 61-74):
one entry per shape keyed by its rendered ShapeID, and, when the model has
metadata, a "metadata" entry inserted into the same map afterwards. -/
def JsonWriter.shapes (m : Model) : Outcome Json :=
  match outFold (fun s => s.id.render) JsonWriter.shape m.shapes [] with
  | .ok sm =>
    if m.metadata.isEmpty then .ok (.obj sm)
    else
      match outFold Prod.fst (fun kv => JsonWriter.value kv.2) m.metadata [] with
      | .ok mm => .ok (.obj (mapInsert K_METADATA (.obj mm) sm))
      | .error e => .error e
      | .panic => .panic
      | .noArm => .noArm
  | .error e => .error e
  | .panic => .panic
  | .noArm => .noArm

/-- Embeds ModelWriter::write for JsonWriter (src/atelier-json/src/writer.rs
lines 36-53) up to the final serde serialization step: the resulting value
tree holds the "smithy" version string entry and the "shapes" entry. -/
def JsonWriter.write (m : Model) : Outcome Json :=
  (JsonWriter.shapes m).map (fun sh =>
    .obj (mapInsert K_SHAPES sh (mapInsert K_SMITHY (.str m.version.display) [])))

/-- Embeds the ModelReader trait (src/atelier-core/src/io/mod.rs lines
64-71): a REPRESENTATION display string and a read function over a byte
stream. -/
structure ModelReader where
  representation : Str
  read : Bytes → Outcome Model

/-- Embeds the ModelWriter trait (src/atelier-core/src/io/mod.rs lines
52-59): a REPRESENTATION display string and a write function producing the
bytes written to the sink. -/
structure ModelWriter where
  representation : Str
  write : Model → Outcome Bytes

/-- Embeds std::io::Cursor::new over an in-memory byte buffer. -/
structure Cursor where
  data : Bytes

/-- Whether a byte is a UTF-8 continuation byte. -/
def isCont (b : Nat) : Bool := 0x80 ≤ b && b < 0xC0

/-- UTF-8 decoding of a byte list, modelling String::from_utf8: rejects
stray continuation bytes, overlong encodings, surrogate code points and
out-of-range starts. -/
def utf8Decode : Bytes → Option Str
  | [] => some []
  | b :: rest =>
    if b < 0x80 then (utf8Decode rest).map (fun cs => Char.ofNat b :: cs)
    else if 0xC2 ≤ b && b < 0xE0 then
      match rest with
      | c1 :: rest1 =>
        if isCont c1 then
          (utf8Decode rest1).map (fun cs => Char.ofNat ((b - 0xC0) * 64 + (c1 - 0x80)) :: cs)
        else Option.none
      | [] => Option.none
    else if 0xE0 ≤ b && b < 0xF0 then
      match rest with
      | c1 :: c2 :: rest2 =>
        if isCont c1 && isCont c2 &&
            (b ≠ 0xE0 || 0xA0 ≤ c1) && (b ≠ 0xED || c1 < 0xA0) then
          (utf8Decode rest2).map (fun cs =>
            Char.ofNat ((b - 0xE0) * 4096 + (c1 - 0x80) * 64 + (c2 - 0x80)) :: cs)
        else Option.none
      | _ => Option.none
    else if 0xF0 ≤ b && b ≤ 0xF4 then
      match rest with
      | c1 :: c2 :: c3 :: rest3 =>
        if isCont c1 && isCont c2 && isCont c3 &&
            (b ≠ 0xF0 || 0x90 ≤ c1) && (b ≠ 0xF4 || c1 < 0x90) then
          (utf8Decode rest3).map (fun cs =>
            Char.ofNat ((b - 0xF0) * 262144 + (c1 - 0x80) * 4096 +
              (c2 - 0x80) * 64 + (c3 - 0x80)) :: cs)
        else Option.none
      | _ => Option.none
    else Option.none

/-- Embeds read_model_from_string (src/atelier-core/src/io/mod.rs lines
81-88): wrap the bytes in a cursor and hand the cursor to the reader. -/
def read_model_from_string (r : ModelReader) (s : Bytes) : Outcome Model :=
  let buffer := Cursor.mk s
  r.read buffer.data

/-- Embeds write_model_to_string (src/atelier-core/src/io/mod.rs lines
94-99): write into a fresh cursor, propagate a writer error with the
question-mark operator, then unwrap String::from_utf8 on the buffer, which
panics when the written bytes are not valid UTF-8. -/
def write_model_to_string (w : ModelWriter) (m : Model) : Outcome Str :=
  match w.write m with
  | .ok bytes =>
    match utf8Decode bytes with
    | some s => .ok s
    | Option.none => .panic
  | .error e => .error e
  | .panic => .panic
  | .noArm => .noArm

/-- Modelled from the spec: read-model-from-in-memory-bytes is a pure
wrapper with no semantics beyond buffering, the reader applied directly to
the bytes. -/
def spec_read_model_from_string (r : ModelReader) (s : Bytes) : Outcome Model :=
  r.read s

theorem strLt_irrefl : ∀ a : Str, strLt a a = false
  | [] => by simp [strLt]
  | c :: cs => by simp [strLt, Nat.lt_irrefl, strLt_irrefl cs]

theorem strLt_asymm : ∀ a b : Str, strLt a b = true → strLt b a = false
  | [], [], h => by simp [strLt] at h
  | [], _ :: _, _ => by simp [strLt]
  | _ :: _, [], h => by simp [strLt] at h
  | a :: as, b :: bs, h => by
    simp only [strLt] at h ⊢
    by_cases h1 : a.toNat < b.toNat
    · simp [show ¬ b.toNat < a.toNat by omega, h1]
    · have h2 : ¬ b.toNat < a.toNat := by
        by_contra h2
        simp [h1, h2] at h
      have h' : strLt as bs = true := by simpa [h1, h2] using h
      simp [h1, h2, strLt_asymm as bs h']

theorem strLt_trans : ∀ a b c : Str, strLt a b = true → strLt b c = true → strLt a c = true
  | [], b, [], _, h2 => by cases b <;> simp [strLt] at h2
  | [], _, _ :: _, _, _ => by simp [strLt]
  | _ :: _, [], _, h1, _ => by simp [strLt] at h1
  | _ :: _, _ :: _, [], _, h2 => by simp [strLt] at h2
  | a :: as, b :: bs, c :: cs, h1, h2 => by
    simp only [strLt] at h1 h2 ⊢
    by_cases hab : a.toNat < b.toNat
    · by_cases hbc : b.toNat < c.toNat
      · simp [show a.toNat < c.toNat by omega]
      · have hcb : ¬ c.toNat < b.toNat := by
          by_contra hcb
          simp [hbc, hcb] at h2
        simp [show a.toNat < c.toNat by omega]
    · have hba : ¬ b.toNat < a.toNat := by
        by_contra hba
        simp [hab, hba] at h1
      have h1' : strLt as bs = true := by simpa [hab, hba] using h1
      by_cases hbc : b.toNat < c.toNat
      · simp [show a.toNat < c.toNat by omega]
      · have hcb : ¬ c.toNat < b.toNat := by
          by_contra hcb
          simp [hbc, hcb] at h2
        have h2' : strLt bs cs = true := by simpa [hbc, hcb] using h2
        simp [show ¬ a.toNat < c.toNat by omega, show ¬ c.toNat < a.toNat by omega,
          strLt_trans as bs cs h1' h2']

theorem char_toNat_inj {a b : Char} (h : a.toNat = b.toNat) : a = b :=
  Char.eq_of_val_eq (UInt32.ext h)

theorem strLt_total_ne : ∀ a b : Str, a ≠ b → strLt a b = true ∨ strLt b a = true
  | [], [], h => absurd rfl h
  | [], _ :: _, _ => Or.inl (by simp [strLt])
  | _ :: _, [], _ => Or.inr (by simp [strLt])
  | a :: as, b :: bs, h => by
    by_cases h1 : a.toNat < b.toNat
    · left; simp [strLt, h1]
    · by_cases h2 : b.toNat < a.toNat
      · right; simp [strLt, h2]
      · have hab : a = b := char_toNat_inj (by omega)
        subst hab
        have hne : as ≠ bs := fun hh => h (by rw [hh])
        rcases strLt_total_ne as bs hne with h3 | h3
        · left; simp [strLt, Nat.lt_irrefl, h3]
        · right; simp [strLt, Nat.lt_irrefl, h3]

theorem strLt_ne {a b : Str} (h : strLt a b = true) : a ≠ b := by
  intro e
  subst e
  rw [strLt_irrefl] at h
  cases h

theorem mapInsert_head_eq {α : Type} (k : Str) (v v' : α) (rest : List (Str × α)) :
    mapInsert k v ((k, v') :: rest) = (k, v) :: rest := by
  simp [mapInsert]

theorem mapInsert_head_lt {α : Type} {k k' : Str} (h : strLt k k' = true) (v v' : α)
    (rest : List (Str × α)) :
    mapInsert k v ((k', v') :: rest) = (k, v) :: (k', v') :: rest := by
  simp [mapInsert, strLt_ne h, h]

theorem mapInsert_head_gt {α : Type} {k k' : Str} (h : strLt k' k = true) (v v' : α)
    (rest : List (Str × α)) :
    mapInsert k v ((k', v') :: rest) = (k', v') :: mapInsert k v rest := by
  have hne : k ≠ k' := fun e => strLt_ne h e.symm
  simp [mapInsert, hne, strLt_asymm _ _ h]

theorem mapInsert_comm_of_lt {α : Type} {k1 k2 : Str} (hlt : strLt k1 k2 = true)
    (v1 v2 : α) : ∀ m, mapInsert k1 v1 (mapInsert k2 v2 m) = mapInsert k2 v2 (mapInsert k1 v1 m)
  | [] => by
    show mapInsert k1 v1 [(k2, v2)] = mapInsert k2 v2 [(k1, v1)]
    rw [mapInsert_head_lt hlt, mapInsert_head_gt hlt]
    rfl
  | (k', v') :: rest => by
    by_cases e2 : k2 = k'
    · subst e2
      rw [mapInsert_head_eq, mapInsert_head_lt hlt, mapInsert_head_lt hlt,
        mapInsert_head_gt hlt, mapInsert_head_eq]
    · rcases strLt_total_ne k2 k' e2 with h2 | h2
      · have h1 : strLt k1 k' = true := strLt_trans _ _ _ hlt h2
        rw [mapInsert_head_lt h2, mapInsert_head_lt hlt, mapInsert_head_lt h1,
          mapInsert_head_gt hlt, mapInsert_head_lt h2]
      · by_cases e1 : k1 = k'
        · subst e1
          rw [mapInsert_head_gt h2, mapInsert_head_eq, mapInsert_head_eq,
            mapInsert_head_gt h2]
        · rcases strLt_total_ne k1 k' e1 with h1 | h1
          · rw [mapInsert_head_gt h2, mapInsert_head_lt h1, mapInsert_head_lt h1,
              mapInsert_head_gt hlt, mapInsert_head_gt h2]
          · rw [mapInsert_head_gt h2, mapInsert_head_gt h1, mapInsert_head_gt h1,
              mapInsert_head_gt h2, mapInsert_comm_of_lt hlt v1 v2 rest]

theorem mapInsert_comm {α : Type} {k1 k2 : Str} (h : k1 ≠ k2) (v1 v2 : α)
    (m : List (Str × α)) :
    mapInsert k1 v1 (mapInsert k2 v2 m) = mapInsert k2 v2 (mapInsert k1 v1 m) := by
  rcases strLt_total_ne k1 k2 h with hlt | hlt
  · exact mapInsert_comm_of_lt hlt v1 v2 m
  · exact (mapInsert_comm_of_lt hlt v2 v1 m).symm

theorem mapLookup_mapInsert_self {α : Type} (k : Str) (v : α) :
    ∀ m : List (Str × α), mapLookup k (mapInsert k v m) = some v
  | [] => by simp [mapInsert, mapLookup]
  | (k', v') :: rest => by
    by_cases h : k = k'
    · subst h
      rw [mapInsert_head_eq]
      simp [mapLookup]
    · rcases strLt_total_ne k k' h with h2 | h2
      · rw [mapInsert_head_lt h2]
        simp [mapLookup]
      · rw [mapInsert_head_gt h2]
        simp [mapLookup, h, mapLookup_mapInsert_self k v rest]

theorem mapLookup_mapInsert_ne {α : Type} {k k' : Str} (h : k ≠ k') (v : α) :
    ∀ m : List (Str × α), mapLookup k (mapInsert k' v m) = mapLookup k m
  | [] => by simp [mapInsert, mapLookup, h]
  | (k'', v'') :: rest => by
    by_cases h1 : k' = k''
    · subst h1
      rw [mapInsert_head_eq]
      simp [mapLookup, h]
    · rcases strLt_total_ne k' k'' h1 with h2 | h2
      · rw [mapInsert_head_lt h2]
        simp [mapLookup, h]
      · rw [mapInsert_head_gt h2]
        by_cases h3 : k = k''
        · simp [mapLookup, h3]
        · simp [mapLookup, h3, mapLookup_mapInsert_ne h v rest]

theorem outFold_ok_notmem {α : Type} {κ : α → Str} {φ : α → Outcome Json} :
    ∀ {l : List α} {m M : List (Str × Json)}, outFold κ φ l m = .ok M →
      ∀ {k : Str}, k ∉ l.map κ → mapLookup k M = mapLookup k m := by
  intro l
  induction l with
  | nil =>
    intro m M h k _
    simp only [outFold] at h
    injection h with h
    rw [h]
  | cons x rest ih =>
    intro m M h k hk
    simp only [List.map_cons, List.mem_cons, not_or] at hk
    obtain ⟨hk1, hk2⟩ := hk
    cases hx : φ x with
    | ok j =>
      simp only [outFold, hx] at h
      rw [ih h hk2, mapLookup_mapInsert_ne hk1]
    | error e =>
      simp only [outFold, hx] at h
      exact Outcome.noConfusion h
    | panic =>
      simp only [outFold, hx] at h
      exact Outcome.noConfusion h
    | noArm =>
      simp only [outFold, hx] at h
      exact Outcome.noConfusion h

theorem outFold_ok_mem {α : Type} {κ : α → Str} {φ : α → Outcome Json} :
    ∀ {l : List α} {m M : List (Str × Json)}, outFold κ φ l m = .ok M →
      (l.map κ).Nodup → ∀ {x : α}, x ∈ l →
      ∃ j, φ x = .ok j ∧ mapLookup (κ x) M = some j := by
  intro l
  induction l with
  | nil =>
    intro m M _ _ x hx
    cases hx
  | cons y rest ih =>
    intro m M h hnd x hx
    simp only [List.map_cons, List.nodup_cons] at hnd
    cases hy : φ y with
    | ok j =>
      simp only [outFold, hy] at h
      rcases List.mem_cons.mp hx with he | hm
      · subst he
        refine ⟨j, hy, ?_⟩
        rw [outFold_ok_notmem h hnd.1, mapLookup_mapInsert_self]
      · exact ih h hnd.2 hm
    | error e =>
      simp only [outFold, hy] at h
      exact Outcome.noConfusion h
    | panic =>
      simp only [outFold, hy] at h
      exact Outcome.noConfusion h
    | noArm =>
      simp only [outFold, hy] at h
      exact Outcome.noConfusion h

theorem outFold_ok_forall {α : Type} {κ : α → Str} {φ : α → Outcome Json} :
    ∀ {l : List α} {m M : List (Str × Json)}, outFold κ φ l m = .ok M →
      ∀ x ∈ l, (φ x).isOk = true := by
  intro l
  induction l with
  | nil =>
    intro m M _ x hx
    cases hx
  | cons y rest ih =>
    intro m M h x hx
    cases hy : φ y with
    | ok j =>
      simp only [outFold, hy] at h
      rcases List.mem_cons.mp hx with he | hm
      · subst he
        simp [hy, Outcome.isOk]
      · exact ih h x hm
    | error e =>
      simp only [outFold, hy] at h
      exact Outcome.noConfusion h
    | panic =>
      simp only [outFold, hy] at h
      exact Outcome.noConfusion h
    | noArm =>
      simp only [outFold, hy] at h
      exact Outcome.noConfusion h

theorem outFold_eq_foldl {α : Type} {κ : α → Str} {φ : α → Outcome Json} :
    ∀ {l : List α} (m : List (Str × Json)), (∀ x ∈ l, (φ x).isOk = true) →
      outFold κ φ l m =
        .ok (l.foldl (fun acc x => mapInsert (κ x) ((φ x).getD .null) acc) m) := by
  intro l
  induction l with
  | nil =>
    intro m _
    rfl
  | cons x rest ih =>
    intro m hok
    have hx := hok x (List.mem_cons_self x rest)
    cases hxv : φ x with
    | ok j =>
      simp only [outFold, hxv, List.foldl_cons]
      rw [ih _ (fun y hy => hok y (List.mem_cons_of_mem x hy))]
      simp [hxv, Outcome.getD]
    | error e => rw [hxv] at hx; exact Bool.noConfusion hx
    | panic => rw [hxv] at hx; exact Bool.noConfusion hx
    | noArm => rw [hxv] at hx; exact Bool.noConfusion hx

theorem hash_mem_render (id : ShapeID) : '#' ∈ id.render := by
  unfold ShapeID.render
  simp

theorem render_ne_metadata (id : ShapeID) : id.render ≠ K_METADATA := by
  intro h
  have hm := hash_mem_render id
  rw [h] at hm
  exact absurd hm (by decide)

theorem splitOnChar_ne_nil (sep : Char) : ∀ s : Str, splitOnChar sep s ≠ []
  | [] => by simp [splitOnChar]
  | c :: cs => by
    simp only [splitOnChar]
    cases h : splitOnChar sep cs with
    | nil => simp
    | cons p ps => by_cases hc : c = sep <;> simp [hc]

theorem joinSep_splitOnChar (sep : Char) : ∀ s : Str, joinSep sep (splitOnChar sep s) = s
  | [] => by simp [splitOnChar, joinSep]
  | c :: cs => by
    have ih := joinSep_splitOnChar sep cs
    cases h : splitOnChar sep cs with
    | nil => exact absurd h (splitOnChar_ne_nil sep cs)
    | cons p ps =>
      rw [h] at ih
      by_cases hc : c = sep
      · subst hc
        simp only [splitOnChar, h, if_pos rfl]
        simp [joinSep, ih]
      · simp only [splitOnChar, h, if_neg hc]
        cases ps with
        | nil =>
          simp only [joinSep] at ih ⊢
          rw [ih]
        | cons q qs =>
          simp only [joinSep] at ih ⊢
          simp [ih]

theorem splitOnChar_pair {sep : Char} {s a b : Str}
    (h : splitOnChar sep s = [a, b]) : s = a ++ sep :: b := by
  have hj := joinSep_splitOnChar sep s
  rw [h] at hj
  simpa [joinSep] using hj.symm

theorem NamespaceID.nsParse_render {s : Str} {n : NamespaceID}
    (h : NamespaceID.parse s = some n) : n.render = s := by
  simp only [NamespaceID.parse] at h
  split at h
  · injection h with h
    rw [← h]
    exact joinSep_splitOnChar '.' s
  · exact Option.noConfusion h

theorem ShapeID.sidParse_render {s : Str} {i : ShapeID}
    (h : ShapeID.parse s = some i) : i.render = s := by
  rw [ShapeID.parse] at h
  split at h
  case _ nsStr rest heq =>
    cases hns : NamespaceID.parse nsStr with
    | none =>
      simp only [hns] at h
      exact Option.noConfusion h
    | some n =>
      simp only [hns] at h
      have hnr : n.render = nsStr := NamespaceID.nsParse_render hns
      have hs : s = nsStr ++ '#' :: rest := splitOnChar_pair heq
      split at h
      case _ name heq2 =>
        split at h
        · injection h with h
          have hrest : rest = name := by
            have hj := joinSep_splitOnChar '$' rest
            rw [heq2] at hj
            simpa [joinSep] using hj.symm
          rw [← h]
          simp [ShapeID.render, hnr, hs, hrest]
        · exact Option.noConfusion h
      case _ name mem heq2 =>
        split at h
        · injection h with h
          have hrest : rest = name ++ '$' :: mem := splitOnChar_pair heq2
          rw [← h]
          simp [ShapeID.render, hnr, hs, hrest]
        · exact Option.noConfusion h
      case _ =>
        exact Option.noConfusion h
  case _ =>
    exact Option.noConfusion h

theorem NamespaceID.nsParse_of_valid {s : Str} (hv : validNamespaceString s = true) :
    NamespaceID.parse s = some ⟨splitOnChar '.' s⟩ := by
  rw [validNamespaceString] at hv
  simp [NamespaceID.parse, hv]

theorem ShapeID.sidParse_of_valid {s : Str} (hv : validShapeIDString s = true) :
    ∃ i, ShapeID.parse s = some i := by
  rw [validShapeIDString] at hv
  rw [ShapeID.parse]
  split at hv
  case _ nsStr rest heq =>
    simp only [Bool.and_eq_true] at hv
    obtain ⟨hns, hrest⟩ := hv
    simp only [heq, NamespaceID.nsParse_of_valid hns]
    split at hrest
    case _ name heq2 =>
      simp only [heq2, hrest, if_true]
      exact ⟨_, rfl⟩
    case _ name mem heq2 =>
      simp only [heq2, hrest, if_true]
      exact ⟨_, rfl⟩
    case _ =>
      exact Bool.noConfusion hrest
  case _ =>
    exact Bool.noConfusion hv

/-- C7: for every syntactically valid Identifier, NamespaceID or ShapeID
string s, parsing succeeds and the canonical rendering of the parsed value
is s itself. -/
theorem claim_C7_parse_roundtrip :
    (∀ s : Str, validIdentString s = true → ∃ i, Identifier.parse s = some i ∧ i = s) ∧
    (∀ s : Str, validNamespaceString s = true →
      ∃ n, NamespaceID.parse s = some n ∧ n.render = s) ∧
    (∀ s : Str, validShapeIDString s = true →
      ∃ i, ShapeID.parse s = some i ∧ i.render = s) := by
  refine ⟨?_, ?_, ?_⟩
  · intro s hv
    exact ⟨s, by simp [Identifier.parse, hv], rfl⟩
  · intro s hv
    exact ⟨⟨splitOnChar '.' s⟩, NamespaceID.nsParse_of_valid hv, joinSep_splitOnChar '.' s⟩
  · intro s hv
    obtain ⟨i, hi⟩ := ShapeID.sidParse_of_valid hv
    exact ⟨i, hi, ShapeID.sidParse_render hi⟩

/-- Witness for C7 at concrete identifier, namespace and shape-id strings. -/
theorem claim_C7_parse_roundtrip_witness :
    validIdentString "abc".toList = true ∧
    validNamespaceString "example.motd".toList = true ∧
    validShapeIDString "example.motd#Message$date".toList = true ∧
    (∃ i, Identifier.parse "abc".toList = some i ∧ i = "abc".toList) ∧
    (∃ n, NamespaceID.parse "example.motd".toList = some n ∧
      n.render = "example.motd".toList) ∧
    (∃ i, ShapeID.parse "example.motd#Message$date".toList = some i ∧
      i.render = "example.motd#Message$date".toList) :=
  ⟨by decide, by decide, by decide,
    claim_C7_parse_roundtrip.1 _ (by decide),
    claim_C7_parse_roundtrip.2.1 _ (by decide),
    claim_C7_parse_roundtrip.2.2 _ (by decide)⟩

/-- C9: Version::from_str succeeds exactly on "1.0" giving V10, fails with
InvalidVersionNumber on every other string, Display always renders "1.0",
and from_str applied to the rendering returns the version unchanged. -/
theorem claim_C9_version :
    (∀ (s : Str) (v : Version), Version.from_str s = .ok v ↔ s = "1.0".toList ∧ v = .v10) ∧
    (∀ s : Str, s ≠ "1.0".toList →
      Version.from_str s = .error (.invalidVersionNumber s)) ∧
    (∀ v : Version, v.display = "1.0".toList) ∧
    (∀ v : Version, Version.from_str v.display = .ok v) := by
  refine ⟨?_, ?_, ?_, ?_⟩
  · intro s v
    constructor
    · intro h
      cases v
      refine ⟨?_, rfl⟩
      by_contra hs
      rw [Version.from_str, if_neg hs] at h
      exact Except.noConfusion h
    · rintro ⟨hs, hv⟩
      subst hs
      subst hv
      simp [Version.from_str]
  · intro s hs
    rw [Version.from_str, if_neg hs]
  · intro v
    cases v
    rfl
  · intro v
    cases v
    simp [Version.display, Version.from_str]

/-- Witness for C9 at the strings "1.0" and "2.0" and the version V10. -/
theorem claim_C9_version_witness :
    Version.from_str "1.0".toList = .ok .v10 ∧
    Version.from_str "2.0".toList = .error (.invalidVersionNumber "2.0".toList) ∧
    Version.from_str (Version.display .v10) = .ok .v10 :=
  ⟨(claim_C9_version.1 _ _).mpr ⟨rfl, rfl⟩,
    claim_C9_version.2.1 _ (by decide),
    claim_C9_version.2.2.2 .v10⟩

/-- C4 failing evaluation: the value conversion of the JSON writer has no
match arm for the TextBlock and ShapeID variants of the data model
(writer.rs lines 233-251 cover only None, Array, Object, Number, Boolean
and String), so no JSON value is produced for them; `Outcome.noArm` marks
the missing source arms. -/
theorem claim_C4_value_missing_arms :
    JsonWriter.value (.textBlock "hello".toList) = .noArm ∧
    JsonWriter.value
      (.shapeID ⟨⟨["example".toList]⟩, "Message".toList, Option.none⟩) = .noArm :=
  ⟨rfl, rfl⟩

/-- The trait-free resource shape exhibiting the Resource key mix-up: one
instance operation, one collection operation, one child resource. -/
def c3Resource : TopLevelShape :=
  { id := ⟨⟨["example".toList]⟩, "Thing".toList, Option.none⟩
    traits := []
    body := .resource
      { identifiers := []
        create := Option.none
        put := Option.none
        read := Option.none
        update := Option.none
        delete := Option.none
        list := Option.none
        operations := [⟨⟨["example".toList]⟩, "OpA".toList, Option.none⟩]
        collection_operations := [⟨⟨["example".toList]⟩, "OpB".toList, Option.none⟩]
        resources := [⟨⟨["example".toList]⟩, "Child".toList, Option.none⟩] } }

/-- C3 failing evaluation: on a resource with non-empty instance operations,
collection operations and child resources, the emitted object binds
"operations" to the collection operation references (the instance operation
entry having been overwritten), binds "collectionOperations" to the child
resource references, and has no "resources" key at all. -/
theorem claim_C3_resource_keys_swapped :
    (JsonWriter.shape c3Resource).isOk = true ∧
    jsonLookup ((JsonWriter.shape c3Resource).getD .null) K_OPERATIONS =
      some (.arr [JsonWriter.reference ⟨⟨["example".toList]⟩, "OpB".toList, Option.none⟩]) ∧
    jsonLookup ((JsonWriter.shape c3Resource).getD .null) K_COLLECTION_OPERATIONS =
      some (.arr [JsonWriter.reference ⟨⟨["example".toList]⟩, "Child".toList, Option.none⟩]) ∧
    jsonLookup ((JsonWriter.shape c3Resource).getD .null) K_RESOURCES = Option.none :=
  ⟨rfl, rfl, rfl, rfl⟩

/-- The model whose metadata holds a non-finite double value. -/
def nanModel : Model :=
  { version := .v10
    shapes := []
    metadata := [("bad".toList, .number (.float nanF64))] }

/-- C1 counterexample: on a model whose metadata holds a NaN double, the
JSON writer panics (the unwrap of JsonNumber::from_f64 in writer.rs line
246) instead of returning an error value. -/
theorem claim_C1_counterexample :
    JsonWriter.write nanModel = .panic ∧
    JsonWriter.value (.number (.float nanF64)) = .panic :=
  ⟨rfl, rfl⟩

/-- C1 amended: writer-reported failures are propagated as explicit error
values, and finite doubles convert successfully, but a non-finite double
panics in the value conversion, and write_model_to_string panics when the
written bytes are not valid UTF-8 (the two unwrap calls), rather than
returning Err. -/
theorem claim_C1_amended :
    (∀ f : F64, f.isFinite = false → JsonWriter.value (.number (.float f)) = .panic) ∧
    (∀ f : F64, f.isFinite = true →
      JsonWriter.value (.number (.float f)) = .ok (.num (.float f))) ∧
    (∀ (w : ModelWriter) (m : Model) (e : ErrorKind),
      w.write m = .error e → write_model_to_string w m = .error e) ∧
    (∀ (w : ModelWriter) (m : Model) (bs : Bytes),
      w.write m = .ok bs → utf8Decode bs = Option.none →
      write_model_to_string w m = .panic) := by
  refine ⟨?_, ?_, ?_, ?_⟩
  · intro f hf
    simp [JsonWriter.value, JsonNumber.from_f64, hf]
  · intro f hf
    simp [JsonWriter.value, JsonNumber.from_f64, hf]
  · intro w m e h
    simp [write_model_to_string, h]
  · intro w m bs h hd
    simp [write_model_to_string, h, hd]

/-- A model writer that always reports an explicit error. -/
def c1ErrWriter : ModelWriter := ⟨"err".toList, fun _ => .error (.other "nope".toList)⟩

/-- A model writer that writes the single invalid UTF-8 byte 0xFF. -/
def c1BadWriter : ModelWriter := ⟨"bad".toList, fun _ => .ok [255]⟩

/-- The empty model used by the C1 witness. -/
def c1Model : Model := ⟨.v10, [], []⟩

/-- Witness for the amended C1 at a NaN double, an erroring writer and a
writer producing invalid UTF-8. -/
theorem claim_C1_amended_witness :
    nanF64.isFinite = false ∧
    JsonWriter.value (.number (.float nanF64)) = .panic ∧
    write_model_to_string c1ErrWriter c1Model = .error (.other "nope".toList) ∧
    write_model_to_string c1BadWriter c1Model = .panic :=
  ⟨rfl, claim_C1_amended.1 nanF64 rfl,
    claim_C1_amended.2.2.1 c1ErrWriter c1Model _ rfl,
    claim_C1_amended.2.2.2 c1BadWriter c1Model [255] rfl rfl⟩

/-- C5: read_model_from_string is exactly the reader applied to the cursor
over the given bytes, and write_model_to_string returns exactly the decoded
string of the bytes the writer produces, each propagating the wrapped
reader or writer error unchanged. -/
theorem claim_C5_wrappers :
    (∀ (r : ModelReader) (s : Bytes),
      read_model_from_string r s = spec_read_model_from_string r s) ∧
    (∀ (w : ModelWriter) (m : Model) (bs : Bytes) (t : Str),
      w.write m = .ok bs → utf8Decode bs = some t →
      write_model_to_string w m = .ok t) ∧
    (∀ (w : ModelWriter) (m : Model) (e : ErrorKind),
      w.write m = .error e → write_model_to_string w m = .error e) ∧
    (∀ (r : ModelReader) (s : Bytes) (e : ErrorKind),
      r.read s = .error e → read_model_from_string r s = .error e) := by
  refine ⟨?_, ?_, ?_, ?_⟩
  · intro r s
    rfl
  · intro w m bs t h hd
    simp [write_model_to_string, h, hd]
  · intro w m e h
    simp [write_model_to_string, h]
  · intro r s e h
    simpa [read_model_from_string] using h

/-- The model, reader and writer used by the C5 witness. -/
def c5Model : Model := ⟨.v10, [], []⟩

/-- A model writer producing the UTF-8 bytes of "hi". -/
def c5Writer : ModelWriter := ⟨"w".toList, fun _ => .ok [104, 105]⟩

/-- A model reader returning a fixed model. -/
def c5Reader : ModelReader := ⟨"r".toList, fun _ => .ok ⟨.v10, [], []⟩⟩

/-- Witness for C5 at a concrete reader, writer and byte string. -/
theorem claim_C5_wrappers_witness :
    write_model_to_string c5Writer c5Model = .ok "hi".toList ∧
    read_model_from_string c5Reader [1, 2] = spec_read_model_from_string c5Reader [1, 2] :=
  ⟨claim_C5_wrappers.2.1 c5Writer c5Model [104, 105] "hi".toList rfl rfl,
    claim_C5_wrappers.1 c5Reader [1, 2]⟩

theorem mapLookup_insertIf_ne {k k' : Str} (h : k ≠ k') (c : Bool) (v : Json)
    (m : List (Str × Json)) : mapLookup k (insertIf c k' v m) = mapLookup k m := by
  cases c <;> simp [insertIf, mapLookup_mapInsert_ne h]

theorem mapLookup_insertOpt_ne {k k' : Str} (h : k ≠ k') (o : Option ShapeID)
    (m : List (Str × Json)) : mapLookup k (insertOpt k' o m) = mapLookup k m := by
  cases o <;> simp [insertOpt, mapLookup_mapInsert_ne h]

theorem shapeBody_preserves_traits {b : ShapeKind} {m0 so : List (Str × Json)}
    (h : JsonWriter.shapeBody b m0 = .ok so) :
    mapLookup K_TRAITS so = mapLookup K_TRAITS m0 := by
  cases b with
  | simple v =>
    simp only [JsonWriter.shapeBody] at h
    injection h with h
    rw [← h, mapLookup_mapInsert_ne (by decide)]
  | list v =>
    simp only [JsonWriter.shapeBody] at h
    injection h with h
    rw [← h, mapLookup_mapInsert_ne (by decide), mapLookup_mapInsert_ne (by decide)]
  | set v =>
    simp only [JsonWriter.shapeBody] at h
    injection h with h
    rw [← h, mapLookup_mapInsert_ne (by decide), mapLookup_mapInsert_ne (by decide)]
  | map v =>
    simp only [JsonWriter.shapeBody] at h
    injection h with h
    rw [← h, mapLookup_mapInsert_ne (by decide), mapLookup_mapInsert_ne (by decide),
      mapLookup_mapInsert_ne (by decide)]
  | struct v =>
    simp only [JsonWriter.shapeBody] at h
    by_cases hm : v.members.isEmpty
    · rw [if_pos hm] at h
      injection h with h
      rw [← h, mapLookup_mapInsert_ne (by decide)]
    · rw [if_neg hm] at h
      cases hmm : JsonWriter.members v.members with
      | ok mj =>
        rw [hmm] at h
        injection h with h
        rw [← h, mapLookup_mapInsert_ne (by decide), mapLookup_mapInsert_ne (by decide)]
      | error e => rw [hmm] at h; exact Outcome.noConfusion h
      | panic => rw [hmm] at h; exact Outcome.noConfusion h
      | noArm => rw [hmm] at h; exact Outcome.noConfusion h
  | union v =>
    simp only [JsonWriter.shapeBody] at h
    by_cases hm : v.members.isEmpty
    · rw [if_pos hm] at h
      injection h with h
      rw [← h, mapLookup_mapInsert_ne (by decide)]
    · rw [if_neg hm] at h
      cases hmm : JsonWriter.members v.members with
      | ok mj =>
        rw [hmm] at h
        injection h with h
        rw [← h, mapLookup_mapInsert_ne (by decide), mapLookup_mapInsert_ne (by decide)]
      | error e => rw [hmm] at h; exact Outcome.noConfusion h
      | panic => rw [hmm] at h; exact Outcome.noConfusion h
      | noArm => rw [hmm] at h; exact Outcome.noConfusion h
  | service v =>
    simp only [JsonWriter.shapeBody] at h
    injection h with h
    rw [← h, mapLookup_insertIf_ne (by decide), mapLookup_insertIf_ne (by decide),
      mapLookup_mapInsert_ne (by decide), mapLookup_mapInsert_ne (by decide)]
  | operation v =>
    simp only [JsonWriter.shapeBody] at h
    injection h with h
    rw [← h, mapLookup_insertIf_ne (by decide), mapLookup_insertOpt_ne (by decide),
      mapLookup_insertOpt_ne (by decide), mapLookup_mapInsert_ne (by decide)]
  | resource v =>
    simp only [JsonWriter.shapeBody] at h
    injection h with h
    rw [← h, mapLookup_insertIf_ne (by decide), mapLookup_insertIf_ne (by decide),
      mapLookup_insertIf_ne (by decide), mapLookup_insertOpt_ne (by decide),
      mapLookup_insertOpt_ne (by decide), mapLookup_insertOpt_ne (by decide),
      mapLookup_insertOpt_ne (by decide), mapLookup_insertOpt_ne (by decide),
      mapLookup_insertOpt_ne (by decide), mapLookup_insertIf_ne (by decide),
      mapLookup_mapInsert_ne (by decide)]
  | unresolved =>
    simp only [JsonWriter.shapeBody] at h
    injection h with h
    rw [← h, mapLookup_mapInsert_ne (by decide)]

theorem shape_ok_decompose {s : TopLevelShape} {js : Json}
    (h : JsonWriter.shape s = .ok js) :
    ∃ m0 so, JsonWriter.shapeBody s.body m0 = .ok so ∧ js = .obj so := by
  simp only [JsonWriter.shape] at h
  split at h
  case _ m0 heq =>
    cases hsb : JsonWriter.shapeBody s.body m0 with
    | ok so =>
      simp only [hsb, Outcome.map] at h
      injection h with h
      exact ⟨m0, so, hsb, h.symm⟩
    | error e =>
      simp only [hsb, Outcome.map] at h
      exact Outcome.noConfusion h
    | panic =>
      simp only [hsb, Outcome.map] at h
      exact Outcome.noConfusion h
    | noArm =>
      simp only [hsb, Outcome.map] at h
      exact Outcome.noConfusion h
  case _ => exact Outcome.noConfusion h
  case _ => exact Outcome.noConfusion h
  case _ => exact Outcome.noConfusion h

theorem shape_start_of_traits {s : TopLevelShape} {js : Json}
    (h : JsonWriter.shape s = .ok js) (hne : s.traits ≠ []) :
    ∃ tr so,
      outFold (fun t => t.id.render) traitValueJson s.traits [] = .ok tr ∧
      JsonWriter.shapeBody s.body (mapInsert K_TRAITS (.obj tr) []) = .ok so ∧
      js = .obj so := by
  have hie : ¬ (s.traits.isEmpty = true) := by
    cases hts : s.traits with
    | nil => exact absurd hts hne
    | cons a l => simp
  simp only [JsonWriter.shape, if_neg hie] at h
  cases htf : outFold (fun t => t.id.render) traitValueJson s.traits [] with
  | ok tr =>
    simp only [JsonWriter.traits, htf, Outcome.map] at h
    cases hsb : JsonWriter.shapeBody s.body (mapInsert K_TRAITS (.obj tr) []) with
    | ok so =>
      simp only [hsb, Outcome.map] at h
      injection h with h
      exact ⟨tr, so, rfl, hsb, h.symm⟩
    | error e =>
      simp only [hsb, Outcome.map] at h
      exact Outcome.noConfusion h
    | panic =>
      simp only [hsb, Outcome.map] at h
      exact Outcome.noConfusion h
    | noArm =>
      simp only [hsb, Outcome.map] at h
      exact Outcome.noConfusion h
  | error e =>
    simp only [JsonWriter.traits, htf, Outcome.map] at h
    exact Outcome.noConfusion h
  | panic =>
    simp only [JsonWriter.traits, htf, Outcome.map] at h
    exact Outcome.noConfusion h
  | noArm =>
    simp only [JsonWriter.traits, htf, Outcome.map] at h
    exact Outcome.noConfusion h

theorem shape_traits_entry {s : TopLevelShape} {js : Json}
    (h : JsonWriter.shape s = .ok js) (hne : s.traits ≠ []) :
    ∃ so tr, js = .obj so ∧ mapLookup K_TRAITS so = some (.obj tr) ∧
      outFold (fun t => t.id.render) traitValueJson s.traits [] = .ok tr := by
  obtain ⟨tr, so, htf, hsb, hj⟩ := shape_start_of_traits h hne
  refine ⟨so, tr, hj, ?_, htf⟩
  rw [shapeBody_preserves_traits hsb, mapLookup_mapInsert_self]

theorem members_entry {ms : List MemberShape} {mj : Json}
    (h : JsonWriter.members ms = .ok mj)
    (hnd : (ms.map (fun me => me.id.render)).Nodup)
    {mem : MemberShape} (hm : mem ∈ ms) (htne : mem.traits ≠ []) :
    ∃ mems memo tr, mj = .obj mems ∧
      mapLookup mem.id.render mems = some (.obj memo) ∧
      mapLookup K_TRAITS memo = some (.obj tr) ∧
      outFold (fun t => t.id.render) traitValueJson mem.traits [] = .ok tr := by
  cases hmf : outFold (fun me => me.id.render) JsonWriter.memberEntry ms [] with
  | ok mems =>
    have hj : mj = .obj mems := by
      simp only [JsonWriter.members, hmf, Outcome.map] at h
      injection h with h
      exact h.symm
    obtain ⟨jm, hje, hjl⟩ := outFold_ok_mem hmf hnd hm
    have hie : ¬ (mem.traits.isEmpty = true) := by
      cases hts : mem.traits with
      | nil => exact absurd hts htne
      | cons a l => simp
    simp only [JsonWriter.memberEntry, if_neg hie] at hje
    cases htf : outFold (fun t => t.id.render) traitValueJson mem.traits [] with
    | ok tr =>
      simp only [JsonWriter.traits, htf, Outcome.map] at hje
      injection hje with hje
      refine ⟨mems,
        mapInsert K_TARGET (.str mem.target.render) (mapInsert K_TRAITS (.obj tr) []),
        tr, hj, ?_, ?_, rfl⟩
      · rw [hjl, ← hje]
      · rw [mapLookup_mapInsert_ne (by decide), mapLookup_mapInsert_self]
    | error e =>
      simp only [JsonWriter.traits, htf, Outcome.map] at hje
      exact Outcome.noConfusion hje
    | panic =>
      simp only [JsonWriter.traits, htf, Outcome.map] at hje
      exact Outcome.noConfusion hje
    | noArm =>
      simp only [JsonWriter.traits, htf, Outcome.map] at hje
      exact Outcome.noConfusion hje
  | error e =>
    simp only [JsonWriter.members, hmf, Outcome.map] at h
    exact Outcome.noConfusion h
  | panic =>
    simp only [JsonWriter.members, hmf, Outcome.map] at h
    exact Outcome.noConfusion h
  | noArm =>
    simp only [JsonWriter.members, hmf, Outcome.map] at h
    exact Outcome.noConfusion h

theorem shapeBody_members_entry {b : ShapeKind} {m0 so : List (Str × Json)}
    (h : JsonWriter.shapeBody b m0 = .ok so)
    (hne : b.structMembers ≠ []) :
    ∃ mj, JsonWriter.members b.structMembers = .ok mj ∧
      mapLookup K_MEMBERS so = some mj := by
  cases b with
  | struct v =>
    have hie : ¬ (v.members.isEmpty = true) := by
      cases hts : v.members with
      | nil => exact absurd (by simp [ShapeKind.structMembers, hts]) hne
      | cons a l => simp
    simp only [JsonWriter.shapeBody, if_neg hie] at h
    cases hmm : JsonWriter.members v.members with
    | ok mj =>
      simp only [hmm, Outcome.map] at h
      injection h with h
      refine ⟨mj, hmm, ?_⟩
      rw [← h, mapLookup_mapInsert_self]
    | error e =>
      simp only [hmm, Outcome.map] at h
      exact Outcome.noConfusion h
    | panic =>
      simp only [hmm, Outcome.map] at h
      exact Outcome.noConfusion h
    | noArm =>
      simp only [hmm, Outcome.map] at h
      exact Outcome.noConfusion h
  | union v =>
    have hie : ¬ (v.members.isEmpty = true) := by
      cases hts : v.members with
      | nil => exact absurd (by simp [ShapeKind.structMembers, hts]) hne
      | cons a l => simp
    simp only [JsonWriter.shapeBody, if_neg hie] at h
    cases hmm : JsonWriter.members v.members with
    | ok mj =>
      simp only [hmm, Outcome.map] at h
      injection h with h
      refine ⟨mj, hmm, ?_⟩
      rw [← h, mapLookup_mapInsert_self]
    | error e =>
      simp only [hmm, Outcome.map] at h
      exact Outcome.noConfusion h
    | panic =>
      simp only [hmm, Outcome.map] at h
      exact Outcome.noConfusion h
    | noArm =>
      simp only [hmm, Outcome.map] at h
      exact Outcome.noConfusion h
  | simple v => exact absurd rfl hne
  | list v => exact absurd rfl hne
  | set v => exact absurd rfl hne
  | map v => exact absurd rfl hne
  | service v => exact absurd rfl hne
  | operation v => exact absurd rfl hne
  | resource v => exact absurd rfl hne
  | unresolved => exact absurd rfl hne

theorem write_ok_structure {m : Model} {j : Json}
    (hw : JsonWriter.write m = .ok j) :
    ∃ sh, JsonWriter.shapes m = .ok sh ∧
      j = .obj [(K_SHAPES, sh), (K_SMITHY, .str m.version.display)] := by
  cases hsh : JsonWriter.shapes m with
  | ok sh =>
    simp only [JsonWriter.write, hsh, Outcome.map] at hw
    injection hw with hw
    refine ⟨sh, rfl, ?_⟩
    rw [← hw]
    have h1 : mapInsert K_SMITHY (Json.str m.version.display) ([] : List (Str × Json)) =
        [(K_SMITHY, .str m.version.display)] := rfl
    rw [h1, mapInsert_head_lt (by decide)]
  | error e =>
    simp only [JsonWriter.write, hsh, Outcome.map] at hw
    exact Outcome.noConfusion hw
  | panic =>
    simp only [JsonWriter.write, hsh, Outcome.map] at hw
    exact Outcome.noConfusion hw
  | noArm =>
    simp only [JsonWriter.write, hsh, Outcome.map] at hw
    exact Outcome.noConfusion hw

theorem shapes_ok_structure {m : Model} {sh : Json}
    (hs : JsonWriter.shapes m = .ok sh) :
    ∃ sm, outFold (fun s => s.id.render) JsonWriter.shape m.shapes [] = .ok sm ∧
      ((m.metadata = [] ∧ sh = .obj sm) ∨
       (∃ mm, m.metadata ≠ [] ∧
         outFold Prod.fst (fun kv => JsonWriter.value kv.2) m.metadata [] = .ok mm ∧
         sh = .obj (mapInsert K_METADATA (.obj mm) sm))) := by
  cases hsf : outFold (fun s => s.id.render) JsonWriter.shape m.shapes [] with
  | ok sm =>
    refine ⟨sm, rfl, ?_⟩
    simp only [JsonWriter.shapes, hsf] at hs
    by_cases hme : m.metadata.isEmpty
    · rw [if_pos hme] at hs
      injection hs with hs
      exact Or.inl ⟨List.isEmpty_iff.mp hme, hs.symm⟩
    · rw [if_neg hme] at hs
      cases hmf : outFold Prod.fst (fun kv => JsonWriter.value kv.2) m.metadata [] with
      | ok mm =>
        rw [hmf] at hs
        injection hs with hs
        refine Or.inr ⟨mm, ?_, rfl, hs.symm⟩
        intro hnil
        exact hme (by simp [hnil])
      | error e => rw [hmf] at hs; exact Outcome.noConfusion hs
      | panic => rw [hmf] at hs; exact Outcome.noConfusion hs
      | noArm => rw [hmf] at hs; exact Outcome.noConfusion hs
  | error e =>
    simp only [JsonWriter.shapes, hsf] at hs
    exact Outcome.noConfusion hs
  | panic =>
    simp only [JsonWriter.shapes, hsf] at hs
    exact Outcome.noConfusion hs
  | noArm =>
    simp only [JsonWriter.shapes, hsf] at hs
    exact Outcome.noConfusion hs

/-- C10: the top-level object emitted by the JSON writer has exactly the two
keys "shapes" and "smithy" (in the sorted serde map order), the "smithy"
entry holds the rendered spec version, no top-level "metadata" key exists,
and when the model has metadata the metadata object is the "metadata" entry
of the "shapes" object, inserted into the shape map after every shape entry
so that it replaces any entry already stored under that key. -/
theorem claim_C10_top_level (m : Model) (j : Json)
    (hw : JsonWriter.write m = .ok j) :
    j.keys = [K_SHAPES, K_SMITHY] ∧
    jsonLookup j K_SMITHY = some (.str m.version.display) ∧
    jsonLookup j K_METADATA = Option.none ∧
    (m.metadata ≠ [] → ∃ sh mm,
      jsonLookup j K_SHAPES = some (.obj sh) ∧
      outFold Prod.fst (fun kv => JsonWriter.value kv.2) m.metadata [] = .ok mm ∧
      mapLookup K_METADATA sh = some (.obj mm)) := by
  obtain ⟨sh0, hsh, hj⟩ := write_ok_structure hw
  subst hj
  refine ⟨rfl, rfl, rfl, ?_⟩
  intro hme
  obtain ⟨sm, _, hcase⟩ := shapes_ok_structure hsh
  rcases hcase with ⟨hnil, _⟩ | ⟨mm, _, hmf, hsh2⟩
  · exact absurd hnil hme
  · subst hsh2
    exact ⟨mapInsert K_METADATA (.obj mm) sm, mm, rfl, hmf,
      mapLookup_mapInsert_self _ _ _⟩

/-- A model with metadata and no shapes, for the C10 witness. -/
def c10Model : Model := ⟨.v10, [], [("a".toList, .boolean true)]⟩

/-- Witness for C10 on a model with one metadata entry. -/
theorem claim_C10_top_level_witness :
    ((JsonWriter.write c10Model).getD .null).keys = [K_SHAPES, K_SMITHY] ∧
    jsonLookup ((JsonWriter.write c10Model).getD .null) K_METADATA = Option.none ∧
    (∃ sh mm,
      jsonLookup ((JsonWriter.write c10Model).getD .null) K_SHAPES = some (.obj sh) ∧
      outFold Prod.fst (fun kv => JsonWriter.value kv.2) c10Model.metadata [] = .ok mm ∧
      mapLookup K_METADATA sh = some (.obj mm)) :=
  have h := claim_C10_top_level c10Model ((JsonWriter.write c10Model).getD .null) rfl
  ⟨h.1, h.2.2.1, h.2.2.2 (List.cons_ne_nil _ _)⟩

/-- C2 amended: the emitted document contains every metadata key/value pair
of the model and, for every top-level shape and for every structure or
union member that has traits, one entry per applied trait ShapeID carrying
that trait value (a valueless trait rendered as an empty JSON object); the
traits of list, set and map members are not reproduced, since the writer
renders those members as bare target references. -/
theorem claim_C2_amended (m : Model) (j : Json)
    (hw : JsonWriter.write m = .ok j)
    (hmk : (m.metadata.map Prod.fst).Nodup)
    (hsk : (m.shapes.map (fun s => s.id.render)).Nodup) :
    (∀ kv ∈ m.metadata, ∃ sh mo jv,
      jsonLookup j K_SHAPES = some (.obj sh) ∧
      mapLookup K_METADATA sh = some (.obj mo) ∧
      mapLookup kv.1 mo = some jv ∧
      JsonWriter.value kv.2 = .ok jv) ∧
    (∀ s ∈ m.shapes, (s.traits.map (fun t => t.id.render)).Nodup → s.traits ≠ [] →
      ∃ sh so tr, jsonLookup j K_SHAPES = some (.obj sh) ∧
        mapLookup s.id.render sh = some (.obj so) ∧
        mapLookup K_TRAITS so = some (.obj tr) ∧
        ∀ t ∈ s.traits, ∃ tj, mapLookup t.id.render tr = some tj ∧
          traitValueJson t = .ok tj) ∧
    (∀ s ∈ m.shapes, ∀ mem ∈ s.body.structMembers,
      ((s.body.structMembers).map (fun me => me.id.render)).Nodup →
      (mem.traits.map (fun t => t.id.render)).Nodup → mem.traits ≠ [] →
      ∃ sh so mems memo tr,
        jsonLookup j K_SHAPES = some (.obj sh) ∧
        mapLookup s.id.render sh = some (.obj so) ∧
        mapLookup K_MEMBERS so = some (.obj mems) ∧
        mapLookup mem.id.render mems = some (.obj memo) ∧
        mapLookup K_TRAITS memo = some (.obj tr) ∧
        ∀ t ∈ mem.traits, ∃ tj, mapLookup t.id.render tr = some tj ∧
          traitValueJson t = .ok tj) := by
  obtain ⟨sh0, hsh, hj⟩ := write_ok_structure hw
  subst hj
  obtain ⟨sm, hsf, hcase⟩ := shapes_ok_structure hsh
  refine ⟨?_, ?_, ?_⟩
  · intro kv hkv
    rcases hcase with ⟨hnil, _⟩ | ⟨mm, _, hmf, hsh2⟩
    · rw [hnil] at hkv
      cases hkv
    · subst hsh2
      obtain ⟨jv, hjv, hlk⟩ := outFold_ok_mem hmf hmk hkv
      exact ⟨mapInsert K_METADATA (.obj mm) sm, mm, jv, rfl,
        mapLookup_mapInsert_self _ _ _, hlk, hjv⟩
  · intro s hs htnd htne
    obtain ⟨js, hjs, hlks⟩ := outFold_ok_mem hsf hsk hs
    obtain ⟨so, tr, hjso, hlkt, htf⟩ := shape_traits_entry hjs htne
    subst hjso
    rcases hcase with ⟨_, hsh2⟩ | ⟨mm, _, _, hsh2⟩
    · subst hsh2
      refine ⟨sm, so, tr, rfl, hlks, hlkt, ?_⟩
      intro t ht
      obtain ⟨tj, htj, hlktj⟩ := outFold_ok_mem htf htnd ht
      exact ⟨tj, hlktj, htj⟩
    · subst hsh2
      refine ⟨mapInsert K_METADATA (.obj mm) sm, so, tr, rfl, ?_, hlkt, ?_⟩
      · rw [mapLookup_mapInsert_ne (render_ne_metadata s.id), hlks]
      · intro t ht
        obtain ⟨tj, htj, hlktj⟩ := outFold_ok_mem htf htnd ht
        exact ⟨tj, hlktj, htj⟩
  · intro s hs mem hmem hmnd htnd htne
    obtain ⟨js, hjs, hlks⟩ := outFold_ok_mem hsf hsk hs
    obtain ⟨m0, so, hsb, hjso⟩ := shape_ok_decompose hjs
    subst hjso
    have hne : s.body.structMembers ≠ [] := by
      intro hnil
      rw [hnil] at hmem
      cases hmem
    obtain ⟨mj, hmembers, hlkm⟩ := shapeBody_members_entry hsb hne
    obtain ⟨mems, memo, tr, hmj, hlkmem, hlktr, htf⟩ := members_entry hmembers hmnd hmem htne
    subst hmj
    rcases hcase with ⟨_, hsh2⟩ | ⟨mm, _, _, hsh2⟩
    · subst hsh2
      refine ⟨sm, so, mems, memo, tr, rfl, hlks, hlkm, hlkmem, hlktr, ?_⟩
      intro t ht
      obtain ⟨tj, htj, hlktj⟩ := outFold_ok_mem htf htnd ht
      exact ⟨tj, hlktj, htj⟩
    · subst hsh2
      refine ⟨mapInsert K_METADATA (.obj mm) sm, so, mems, memo, tr, rfl, ?_,
        hlkm, hlkmem, hlktr, ?_⟩
      · rw [mapLookup_mapInsert_ne (render_ne_metadata s.id), hlks]
      · intro t ht
        obtain ⟨tj, htj, hlktj⟩ := outFold_ok_mem htf htnd ht
        exact ⟨tj, hlktj, htj⟩

/-- The list shape whose member carries a trait, used to refute C2 as
stated: the writer drops list member traits. -/
def c2ListShape : TopLevelShape :=
  { id := ⟨⟨["example".toList]⟩, "Names".toList, Option.none⟩
    traits := []
    body := .list
      { member :=
        { id := ⟨⟨["example".toList]⟩, "Names".toList, some "member".toList⟩
          target := ⟨⟨["example".toList]⟩, "Name".toList, Option.none⟩
          traits := [⟨⟨⟨["smithy".toList, "api".toList]⟩, "sensitive".toList,
            Option.none⟩, Option.none⟩] } } }

/-- The one-shape model used to refute C2 as stated. -/
def c2Model : Model := ⟨.v10, [c2ListShape], []⟩

/-- C2 counterexample: the full document written for a model whose only
shape is a list with a trait-bearing member; the member trait
smithy.api#sensitive appears nowhere in the output, which contains only the
member target reference, so the claim that every member trait is emitted
fails. -/
theorem claim_C2_counterexample :
    JsonWriter.write c2Model =
      .ok (.obj [(K_SHAPES, .obj [("example#Names".toList,
        .obj [(K_MEMBER, .obj [(K_TARGET, .str "example#Name".toList)]),
              (K_TYPE, .str V_LIST)])]),
        (K_SMITHY, .str "1.0".toList)]) := rfl

/-- The trait applied in the C2 witness model. -/
def c2wTrait : AppliedTrait :=
  ⟨⟨⟨["smithy".toList, "api".toList]⟩, "required".toList, Option.none⟩, Option.none⟩

/-- The structure member of the C2 witness model. -/
def c2wMember : MemberShape :=
  { id := ⟨⟨["example".toList]⟩, "W".toList, some "f".toList⟩
    target := ⟨⟨["example".toList]⟩, "T".toList, Option.none⟩
    traits := [c2wTrait] }

/-- The structure shape of the C2 witness model, itself carrying a trait. -/
def c2wShape : TopLevelShape :=
  { id := ⟨⟨["example".toList]⟩, "W".toList, Option.none⟩
    traits := [⟨⟨⟨["smithy".toList, "api".toList]⟩, "documentation".toList,
      Option.none⟩, some (.string "d".toList)⟩]
    body := .struct ⟨[c2wMember]⟩ }

/-- The C2 witness model: one structure shape with a trait and a
trait-bearing member, plus one metadata entry. -/
def c2wModel : Model := ⟨.v10, [c2wShape], [("k".toList, .boolean true)]⟩

/-- Witness for the amended C2 on the concrete model. -/
theorem claim_C2_amended_witness :
    (∃ sh mo jv,
      jsonLookup ((JsonWriter.write c2wModel).getD .null) K_SHAPES = some (.obj sh) ∧
      mapLookup K_METADATA sh = some (.obj mo) ∧
      mapLookup "k".toList mo = some jv ∧
      JsonWriter.value (.boolean true) = .ok jv) ∧
    (∃ sh so tr,
      jsonLookup ((JsonWriter.write c2wModel).getD .null) K_SHAPES = some (.obj sh) ∧
      mapLookup c2wShape.id.render sh = some (.obj so) ∧
      mapLookup K_TRAITS so = some (.obj tr) ∧
      ∀ t ∈ c2wShape.traits, ∃ tj, mapLookup t.id.render tr = some tj ∧
        traitValueJson t = .ok tj) ∧
    (∃ sh so mems memo tr,
      jsonLookup ((JsonWriter.write c2wModel).getD .null) K_SHAPES = some (.obj sh) ∧
      mapLookup c2wShape.id.render sh = some (.obj so) ∧
      mapLookup K_MEMBERS so = some (.obj mems) ∧
      mapLookup c2wMember.id.render mems = some (.obj memo) ∧
      mapLookup K_TRAITS memo = some (.obj tr) ∧
      ∀ t ∈ c2wMember.traits, ∃ tj, mapLookup t.id.render tr = some tj ∧
        traitValueJson t = .ok tj) :=
  have h := claim_C2_amended c2wModel ((JsonWriter.write c2wModel).getD .null) rfl
    (by decide) (by decide)
  ⟨h.1 ("k".toList, .boolean true) (List.mem_cons_self _ _),
    h.2.1 c2wShape (List.mem_cons_self _ _) (by decide) (List.cons_ne_nil _ _),
    h.2.2 c2wShape (List.mem_cons_self _ _) c2wMember (List.mem_cons_self _ _)
      (by decide) (by decide) (List.cons_ne_nil _ _)⟩

/-- C8: the JSON writer is insensitive to the order in which the unordered
shape container yields the shapes: a model whose shape list is any
permutation of another, with the same version and metadata, writes the very
same value tree, every emitted object being keyed by string in the
canonical sorted order. -/
theorem claim_C8_deterministic (m1 m2 : Model) (j : Json)
    (hperm : m1.shapes.Perm m2.shapes)
    (hv : m1.version = m2.version)
    (hmeta : m1.metadata = m2.metadata)
    (hnd : (m1.shapes.map (fun s => s.id.render)).Nodup)
    (h1 : JsonWriter.write m1 = .ok j) :
    JsonWriter.write m2 = .ok j := by
  obtain ⟨sh, hsh, hj⟩ := write_ok_structure h1
  obtain ⟨sm, hsf, _⟩ := shapes_ok_structure hsh
  have hok1 : ∀ s ∈ m1.shapes, (JsonWriter.shape s).isOk = true := outFold_ok_forall hsf
  have hok2 : ∀ s ∈ m2.shapes, (JsonWriter.shape s).isOk = true := fun s hs =>
    hok1 s (hperm.mem_iff.mpr hs)
  have hinj := List.inj_on_of_nodup_map hnd
  have hcomm : ∀ x ∈ m1.shapes, ∀ y ∈ m1.shapes, ∀ z : List (Str × Json),
      mapInsert (y.id.render) ((JsonWriter.shape y).getD .null)
        (mapInsert (x.id.render) ((JsonWriter.shape x).getD .null) z) =
      mapInsert (x.id.render) ((JsonWriter.shape x).getD .null)
        (mapInsert (y.id.render) ((JsonWriter.shape y).getD .null) z) := by
    intro x hx y hy z
    by_cases hxy : x = y
    · subst hxy
      rfl
    · have hk : y.id.render ≠ x.id.render := fun he => hxy (hinj hy hx he).symm
      exact mapInsert_comm hk _ _ z
  have hfold := hperm.foldl_eq'
    (f := fun acc s => mapInsert (s.id.render) ((JsonWriter.shape s).getD .null) acc)
    (fun x hx y hy z => hcomm x hx y hy z)
  have hsf2 : outFold (fun s => s.id.render) JsonWriter.shape m2.shapes [] = .ok sm := by
    rw [outFold_eq_foldl [] hok2, ← hfold []]
    rw [outFold_eq_foldl [] hok1] at hsf
    exact hsf
  have hshapes2 : JsonWriter.shapes m2 = JsonWriter.shapes m1 := by
    simp only [JsonWriter.shapes, hsf2, hsf, ← hmeta]
  have hwrite2 : JsonWriter.write m2 = JsonWriter.write m1 := by
    simp only [JsonWriter.write, hshapes2, ← hv]
  rw [hwrite2]
  exact h1

/-- A simple string shape for the C8 witness. -/
def c8Shape1 : TopLevelShape :=
  ⟨⟨⟨["example".toList]⟩, "A".toList, Option.none⟩, [], .simple .string⟩

/-- A simple integer shape for the C8 witness. -/
def c8Shape2 : TopLevelShape :=
  ⟨⟨⟨["example".toList]⟩, "B".toList, Option.none⟩, [], .simple .integer⟩

/-- The C8 witness model in one shape order. -/
def c8ModelA : Model := ⟨.v10, [c8Shape1, c8Shape2], []⟩

/-- The C8 witness model in the swapped shape order. -/
def c8ModelB : Model := ⟨.v10, [c8Shape2, c8Shape1], []⟩

/-- Witness for C8: the two shape orders write the same document. -/
theorem claim_C8_deterministic_witness :
    JsonWriter.write c8ModelB = .ok ((JsonWriter.write c8ModelA).getD .null) :=
  claim_C8_deterministic c8ModelA c8ModelB ((JsonWriter.write c8ModelA).getD .null)
    (List.Perm.swap c8Shape2 c8Shape1 []) rfl rfl (by decide) rfl

end Atelier
